import Mathlib

/-!
Shallow embedding of the dash-nest authorization core:
the ABAC/RBAC `AuthorizationService` (checkPermission, ruleMatches,
evaluateConditions, evaluateOperators, resolveTemplateVariable, the
built-in role registry) and the `CustomClaimsService`
(updateCustomClaims, isCustomClaimsStale, sanitizeCustomClaims).

JavaScript runtime values are modelled by the mutual inductive `Value`
(with explicit `undefined` and `null`, and an opaque `vFun` constructor
for callables).  Numbers are modelled as `Int` (the program only ever
compares and subtracts integral quantities: timestamps, ages, bounds);
string-to-number and object-to-primitive coercions are not modelled, so
ordinal comparisons are defined for numbers, booleans and `null` (via
JavaScript ToNumber) and for string/string pairs (lexicographic), with
every other combination behaving like a NaN comparison (always false) —
exactly the behaviour relevant to the code under study, where `undefined`
operands make every relational guard false.

Strict equality (`===`) on objects, arrays and functions is reference
equality; in this program the two sides of every such comparison are
constructed independently (rule conditions vs. request data), so the
embedding makes composite values never compare equal.

Thrown exceptions (the `TypeError` raised by `Object.entries(null)`, and
identity-provider failures rethrown by the claims service) are modelled
with `Except`.
-/

namespace DashNest

mutual

/-- JavaScript runtime value. -/
inductive Value : Type where
  | vUndefined : Value
  | vNull : Value
  | vBool : Bool → Value
  | vNum : Int → Value
  | vStr : String → Value
  | vFun : Value
  | vArr : VList → Value
  | vObj : VFields → Value

/-- List of JavaScript values (an array's elements, in order). -/
inductive VList : Type where
  | nil : VList
  | cons : Value → VList → VList

/-- Fields of a JavaScript object, in insertion order.  JavaScript
objects cannot carry a key twice; the embedding keeps the association
list representation and states key-uniqueness explicitly where a proof
needs it. -/
inductive VFields : Type where
  | fnil : VFields
  | fcons : String → Value → VFields → VFields

end

/-- Whether the value is `undefined` (JavaScript `value === undefined`). -/
def Value.isUndefined : Value → Bool
  | .vUndefined => true
  | _ => false

/-- Whether `typeof value === 'object'` holds: true for `null`, arrays
and plain objects. -/
def Value.typeofIsObject : Value → Bool
  | .vNull => true
  | .vArr _ => true
  | .vObj _ => true
  | _ => false

/-- Whether `Array.isArray(value)` holds. -/
def Value.isArray : Value → Bool
  | .vArr _ => true
  | _ => false

/-- JavaScript strict equality `===`.  Primitives compare by value;
objects, arrays and functions compare by reference, and the two sides of
every comparison in this program are separately constructed, hence never
identical. -/
def jsStrictEq : Value → Value → Bool
  | .vUndefined, .vUndefined => true
  | .vNull, .vNull => true
  | .vBool a, .vBool b => a == b
  | .vNum a, .vNum b => a == b
  | .vStr a, .vStr b => a == b
  | _, _ => false

/-- JavaScript truthiness of a value. -/
def truthy : Value → Bool
  | .vUndefined => false
  | .vNull => false
  | .vBool b => b
  | .vNum n => n != 0
  | .vStr s => s != ""
  | _ => true

/-- JavaScript ToNumber restricted to the coercions this program can
reach with a well-typed outcome: numbers, booleans and `null` convert;
`undefined` converts to NaN, modelled as `none`; string and object
conversions are likewise left at `none` (no claim exercises them). -/
def toNum : Value → Option Int
  | .vNum n => some n
  | .vBool b => some (if b then 1 else 0)
  | .vNull => some 0
  | _ => none

/-- JavaScript abstract relational comparison: both operands strings
compare lexicographically, otherwise both are converted to numbers and a
NaN on either side makes the comparison undefined (`none`). -/
def jsCmp : Value → Value → Option Ordering
  | .vStr s, .vStr t => some (compare s t)
  | a, b =>
    match toNum a, toNum b with
    | some x, some y => some (compare x y)
    | _, _ => none

/-- JavaScript `a < b` (false when the comparison is undefined). -/
def jsLt (a b : Value) : Bool :=
  jsCmp a b == some Ordering.lt

/-- JavaScript `a <= b` (false when the comparison is undefined). -/
def jsLe (a b : Value) : Bool :=
  match jsCmp a b with
  | some Ordering.lt => true
  | some Ordering.eq => true
  | _ => false

/-- JavaScript `a > b` (false when the comparison is undefined). -/
def jsGt (a b : Value) : Bool :=
  jsCmp a b == some Ordering.gt

/-- JavaScript `a >= b` (false when the comparison is undefined). -/
def jsGe (a b : Value) : Bool :=
  match jsCmp a b with
  | some Ordering.gt => true
  | some Ordering.eq => true
  | _ => false

/-- Property read `obj[key]`: the first binding of the key, `undefined`
when the key is absent. -/
def VFields.get : VFields → String → Value
  | .fnil, _ => .vUndefined
  | .fcons k v t, key => if k == key then v else VFields.get t key

/-- Whether the object has an own property named `key`. -/
def VFields.hasKey : VFields → String → Bool
  | .fnil, _ => false
  | .fcons k _ t, key => k == key || VFields.hasKey t key

/-- Whether every key of the object satisfies `p`. -/
def VFields.allKeys (p : String → Bool) : VFields → Bool
  | .fnil => true
  | .fcons k _ t => p k && VFields.allKeys p t

/-- Whether no key occurs twice (true of every real JavaScript object). -/
def VFields.keysNodup : VFields → Bool
  | .fnil => true
  | .fcons k _ t => !VFields.hasKey t k && VFields.keysNodup t

/-- Entries of the object as a Lean list, in order. -/
def VFields.toList : VFields → List (String × Value)
  | .fnil => []
  | .fcons k v t => (k, v) :: VFields.toList t

/-- JavaScript `array.includes(value)` (SameValueZero, which on the
values of this embedding coincides with strict equality). -/
def VList.containsJs : VList → Value → Bool
  | .nil, _ => false
  | .cons v t, x => jsStrictEq v x || VList.containsJs t x

/-- Read of `resourceContext?.[key]`: `undefined` when the whole
resource context is absent. -/
def rcGet (resourceContext : Option VFields) (key : String) : Value :=
  match resourceContext with
  | some fields => fields.get key
  | none => .vUndefined

/-- Error raised by the JavaScript runtime; `Object.entries(null)`
throws a `TypeError`. -/
inductive JsError : Type where
  | typeError : JsError
deriving DecidableEq

/-- The template string resolved to the caller's user id
(source text: dollar, open brace, userId, close brace). -/
def templateUserId : String := "$\x7buserId\x7d"

/-- The template string resolved to the caller's email
(source text: dollar, open brace, userEmail, close brace). -/
def templateUserEmail : String := "$\x7buserEmail\x7d"

/-- Authorization context (`IAuthorizationContext`): resolved caller
identity for one evaluation.  The decoded token field is irrelevant to
the permission algorithms and omitted. -/
structure IAuthorizationContext : Type where
  userId : String
  email : String
  roles : List String
  attributes : VFields

/-- ABAC rule (`IABAC`): action, resource, optional conditions.  The
identifier/role/description/timestamp fields never influence evaluation
(the description is only logged) and are omitted. -/
structure IABAC : Type where
  action : String
  resource : String
  conditions : Option VFields := none

/-- Role definition (`IRoleDefinition`), restricted to the fields the
evaluator consults plus the built-in marker. -/
structure IRoleDefinition : Type where
  id : String
  name : String
  builtIn : Bool
  active : Bool
  abacRules : List IABAC

namespace BuiltInRole

/-- BuiltInRole.ADMIN. -/
def ADMIN : String := "admin"

/-- BuiltInRole.MODERATOR. -/
def MODERATOR : String := "moderator"

/-- BuiltInRole.USER. -/
def USER : String := "user"

/-- BuiltInRole.GUEST. -/
def GUEST : String := "guest"

end BuiltInRole

/-- AuthorizationService.resolveTemplateVariable: non-strings pass
through; the exact strings resolved are the userId and userEmail
templates. -/
def resolveTemplateVariable (value : Value) (user : IAuthorizationContext) :
    Value :=
  match value with
  | .vStr s =>
    if s = templateUserId then .vStr user.userId
    else if s = templateUserEmail then .vStr user.email
    else .vStr s
  | v => v

/-- The value an operator map is evaluated against:
`userValue !== undefined ? userValue : resourceValue`. -/
def selectedValue (userValue resourceValue : Value) : Value :=
  if userValue.isUndefined then resourceValue else userValue

/-- One arm of the `switch` in AuthorizationService.evaluateOperators:
whether the single operator `op` with operand `opValue` lets `value`
through (each source case returns `false` exactly when its guard fires;
an unrecognized operator falls through the switch, imposing nothing). -/
def opPasses (op : String) (opValue value : Value) : Bool :=
  if op = "$eq" then jsStrictEq value opValue
  else if op = "$ne" then !jsStrictEq value opValue
  else if op = "$in" then
    match opValue with
    | .vArr xs => xs.containsJs value
    | _ => false
  else if op = "$nin" then
    match opValue with
    | .vArr xs => !xs.containsJs value
    | _ => true
  else if op = "$gt" then !jsLe value opValue
  else if op = "$lt" then !jsGe value opValue
  else if op = "$gte" then !jsLt value opValue
  else if op = "$lte" then !jsGt value opValue
  else if op = "$exists" then
    if truthy opValue then !value.isUndefined else value.isUndefined
  else true

/-- Whether the operator key is one of the nine the switch recognizes. -/
def recognizedOp (op : String) : Bool :=
  op = "$eq" || op = "$ne" || op = "$in" || op = "$nin" ||
    op = "$gt" || op = "$lt" || op = "$gte" || op = "$lte" ||
    op = "$exists"

/-- Loop of AuthorizationService.evaluateOperators over the entries of
the operator map, against the already-selected value. -/
def evaluateOpsLoop : VFields → Value → Bool
  | .fnil, _ => true
  | .fcons op opValue rest, value =>
    if opPasses op opValue value then evaluateOpsLoop rest value else false

/-- AuthorizationService.evaluateOperators. -/
def evaluateOperators (operators : VFields)
    (userValue resourceValue : Value) : Bool :=
  evaluateOpsLoop operators (selectedValue userValue resourceValue)

/-- AuthorizationService.evaluateConditions: iterate the condition
entries; per key, try the strict-equality shortcut against the resolved
expected value from either the user attribute or the resource context,
then — when `typeof expectedValue === 'object' && !Array.isArray(...)` —
the operator map.  For `expectedValue === null` that `typeof` test also
succeeds and `Object.entries(null)` throws a `TypeError`. -/
def evaluateConditions (conditions : VFields)
    (user : IAuthorizationContext) (resourceContext : Option VFields) :
    Except JsError Bool :=
  match conditions with
  | .fnil => .ok true
  | .fcons key expectedValue rest =>
    let userAttributeValue := user.attributes.get key
    let resourceValue := rcGet resourceContext key
    let resolvedExpectedValue := resolveTemplateVariable expectedValue user
    if jsStrictEq userAttributeValue resolvedExpectedValue ||
        jsStrictEq resourceValue resolvedExpectedValue then
      evaluateConditions rest user resourceContext
    else
      match expectedValue with
      | .vObj operators =>
        if evaluateOperators operators userAttributeValue resourceValue then
          evaluateConditions rest user resourceContext
        else .ok false
      | .vNull => .error .typeError
      | _ => .ok false

/-- AuthorizationService.ruleMatches: action wildcard-or-equal, resource
wildcard-or-equal, then conditions (absent conditions always apply). -/
def ruleMatches (rule : IABAC) (action resource : String)
    (user : IAuthorizationContext) (resourceContext : Option VFields) :
    Except JsError Bool :=
  if rule.action ≠ "*" ∧ rule.action ≠ action then .ok false
  else if rule.resource ≠ "*" ∧ rule.resource ≠ resource then .ok false
  else
    match rule.conditions with
    | none => .ok true
    | some conditions => evaluateConditions conditions user resourceContext

namespace AbacAction

/-- AbacAction.CREATE. -/
def CREATE : String := "create"

/-- AbacAction.READ. -/
def READ : String := "read"

/-- AbacAction.UPDATE. -/
def UPDATE : String := "update"

/-- AbacAction.DELETE. -/
def DELETE : String := "delete"

/-- AbacAction.MANAGE. -/
def MANAGE : String := "manage"

/-- AbacAction.SHARE. -/
def SHARE : String := "share"

/-- AbacAction.EXPORT. -/
def EXPORT : String := "export"

end AbacAction

namespace AbacResource

/-- AbacResource.USER. -/
def USER : String := "user"

/-- AbacResource.TEAM. -/
def TEAM : String := "team"

/-- AbacResource.BOARD. -/
def BOARD : String := "board"

/-- AbacResource.TASK. -/
def TASK : String := "task"

/-- AbacResource.COMMENT. -/
def COMMENT : String := "comment"

end AbacResource

namespace AbacAttribute

/-- AbacAttribute.RESOURCE_OWNER. -/
def RESOURCE_OWNER : String := "resourceOwner"

/-- AbacAttribute.TEAM_MEMBER. -/
def TEAM_MEMBER : String := "teamMember"

/-- AbacAttribute.TEAM_ADMIN : String := teamAdmin. -/
def TEAM_ADMIN : String := "teamAdmin"

/-- AbacAttribute.BOARD_MEMBER. -/
def BOARD_MEMBER : String := "boardMember"

/-- AbacAttribute.BOARD_ADMIN : String := boardAdmin. -/
def BOARD_ADMIN : String := "boardAdmin"

/-- AbacAttribute.USER_ID. -/
def USER_ID : String := "userId"

end AbacAttribute

/-- Shorthand for a singleton condition map. -/
def cond1 (key : String) (value : Value) : Option VFields :=
  some (.fcons key value .fnil)

/-- Built-in `admin` role definition. -/
def adminRole : IRoleDefinition where
  id := BuiltInRole.ADMIN
  name := "Administrator"
  builtIn := true
  active := true
  abacRules := [{ action := AbacAction.MANAGE, resource := "*" }]

/-- Built-in `moderator` role definition. -/
def moderatorRole : IRoleDefinition where
  id := BuiltInRole.MODERATOR
  name := "Moderator"
  builtIn := true
  active := true
  abacRules :=
    [{ action := AbacAction.MANAGE, resource := AbacResource.TEAM,
       conditions := cond1 AbacAttribute.TEAM_ADMIN (.vBool true) },
     { action := AbacAction.MANAGE, resource := AbacResource.BOARD,
       conditions := cond1 AbacAttribute.BOARD_ADMIN (.vBool true) },
     { action := AbacAction.DELETE, resource := AbacResource.COMMENT }]

/-- Built-in `user` role definition. -/
def userRole : IRoleDefinition where
  id := BuiltInRole.USER
  name := "User"
  builtIn := true
  active := true
  abacRules :=
    [{ action := AbacAction.READ, resource := AbacResource.USER,
       conditions := cond1 AbacAttribute.USER_ID (.vStr templateUserId) },
     { action := AbacAction.UPDATE, resource := AbacResource.USER,
       conditions := cond1 AbacAttribute.USER_ID (.vStr templateUserId) },
     { action := AbacAction.CREATE, resource := AbacResource.TEAM },
     { action := AbacAction.CREATE, resource := AbacResource.BOARD,
       conditions := cond1 AbacAttribute.TEAM_MEMBER (.vBool true) },
     { action := AbacAction.READ, resource := AbacResource.BOARD,
       conditions := cond1 AbacAttribute.BOARD_MEMBER (.vBool true) },
     { action := AbacAction.CREATE, resource := AbacResource.TASK,
       conditions := cond1 AbacAttribute.BOARD_MEMBER (.vBool true) },
     { action := AbacAction.READ, resource := AbacResource.TASK,
       conditions := cond1 AbacAttribute.BOARD_MEMBER (.vBool true) },
     { action := AbacAction.UPDATE, resource := AbacResource.TASK,
       conditions := cond1 AbacAttribute.RESOURCE_OWNER (.vBool true) },
     { action := AbacAction.CREATE, resource := AbacResource.COMMENT,
       conditions := cond1 AbacAttribute.BOARD_MEMBER (.vBool true) },
     { action := AbacAction.UPDATE, resource := AbacResource.COMMENT,
       conditions := cond1 AbacAttribute.RESOURCE_OWNER (.vBool true) },
     { action := AbacAction.DELETE, resource := AbacResource.COMMENT,
       conditions := cond1 AbacAttribute.RESOURCE_OWNER (.vBool true) }]

/-- Built-in `guest` role definition. -/
def guestRole : IRoleDefinition where
  id := BuiltInRole.GUEST
  name := "Guest"
  builtIn := true
  active := true
  abacRules :=
    [{ action := AbacAction.READ, resource := AbacResource.BOARD,
       conditions := cond1 AbacAttribute.BOARD_MEMBER (.vBool true) },
     { action := AbacAction.READ, resource := AbacResource.TASK,
       conditions := cond1 AbacAttribute.BOARD_MEMBER (.vBool true) }]

/-- The AuthorizationService role registry (`builtInRoles` map, in
insertion order). -/
def builtInRoles : List (String × IRoleDefinition) :=
  [(BuiltInRole.ADMIN, adminRole),
   (BuiltInRole.MODERATOR, moderatorRole),
   (BuiltInRole.USER, userRole),
   (BuiltInRole.GUEST, guestRole)]

/-- AuthorizationService.getApplicableRules: concatenate, in role order,
the rules of every role present in the registry and active. -/
def getApplicableRules : List String → List IABAC
  | [] => []
  | role :: rest =>
    (match builtInRoles.lookup role with
     | some roleDefinition =>
       if roleDefinition.active then roleDefinition.abacRules else []
     | none => []) ++ getApplicableRules rest

/-- Loop in AuthorizationService.checkPermission: first rule that
matches wins, a thrown evaluation error propagates. -/
def firstRuleMatch (rules : List IABAC) (action resource : String)
    (user : IAuthorizationContext) (resourceContext : Option VFields) :
    Except JsError Bool :=
  match rules with
  | [] => .ok false
  | rule :: rest =>
    match ruleMatches rule action resource user resourceContext with
    | .error e => .error e
    | .ok true => .ok true
    | .ok false => firstRuleMatch rest action resource user resourceContext

/-- AuthorizationService.checkPermission: admin bypass, then first match
over the aggregated applicable rules, deny when the list is exhausted. -/
def checkPermission (user : IAuthorizationContext)
    (action resource : String) (resourceContext : Option VFields) :
    Except JsError Bool :=
  if user.roles.contains BuiltInRole.ADMIN then .ok true
  else
    firstRuleMatch (getApplicableRules user.roles) action resource user
      resourceContext

/-- AuthorizationService.checkPermissions: `permissions.every(...)`,
short-circuiting on the first deny. -/
def checkPermissions (user : IAuthorizationContext)
    (permissions : List (String × String))
    (resourceContext : Option VFields) : Except JsError Bool :=
  match permissions with
  | [] => .ok true
  | (action, resource) :: rest =>
    match checkPermission user action resource resourceContext with
    | .error e => .error e
    | .ok true => checkPermissions user rest resourceContext
    | .ok false => .ok false

/-- AuthorizationService.checkAnyPermission: `permissions.some(...)`,
short-circuiting on the first allow. -/
def checkAnyPermission (user : IAuthorizationContext)
    (permissions : List (String × String))
    (resourceContext : Option VFields) : Except JsError Bool :=
  match permissions with
  | [] => .ok false
  | (action, resource) :: rest =>
    match checkPermission user action resource resourceContext with
    | .error e => .error e
    | .ok true => .ok true
    | .ok false => checkAnyPermission user rest resourceContext

mutual

/-- CustomClaimsService.sanitizeValue: `null`/`undefined` pass through,
primitives pass through, arrays map element-wise, objects recurse, any
other type (a callable) sanitizes to `null`. -/
def sanitizeValue : Value → Value
  | .vNull => .vNull
  | .vUndefined => .vUndefined
  | .vStr s => .vStr s
  | .vNum n => .vNum n
  | .vBool b => .vBool b
  | .vArr xs => .vArr (sanitizeList xs)
  | .vObj fs => .vObj (sanitizeObject fs)
  | .vFun => .vNull

/-- Element-wise sanitization of an array (`value.map(sanitizeValue)`). -/
def sanitizeList : VList → VList
  | .nil => .nil
  | .cons v t => .cons (sanitizeValue v) (sanitizeList t)

/-- CustomClaimsService.sanitizeObject: drop keys whose value is
`undefined`, sanitize the remaining values. -/
def sanitizeObject : VFields → VFields
  | .fnil => .fnil
  | .fcons k v t =>
    if v.isUndefined then sanitizeObject t
    else .fcons k (sanitizeValue v) (sanitizeObject t)

end

/-- CustomClaimsService.sanitizeCustomClaims (the top level): skip
`undefined` values, keep strings/numbers/booleans as they are, map
arrays element-wise through sanitizeValue, recurse into non-null
objects, and skip everything else — which at the top level also drops
`null` (it fails the `value !== null` test) and callables. -/
def sanitizeCustomClaims : VFields → VFields
  | .fnil => .fnil
  | .fcons k v t =>
    match v with
    | .vUndefined => sanitizeCustomClaims t
    | .vStr s => .fcons k (.vStr s) (sanitizeCustomClaims t)
    | .vNum n => .fcons k (.vNum n) (sanitizeCustomClaims t)
    | .vBool b => .fcons k (.vBool b) (sanitizeCustomClaims t)
    | .vArr xs => .fcons k (.vArr (sanitizeList xs)) (sanitizeCustomClaims t)
    | .vObj fs => .fcons k (.vObj (sanitizeObject fs)) (sanitizeCustomClaims t)
    | .vNull => sanitizeCustomClaims t
    | .vFun => sanitizeCustomClaims t

mutual

/-- Whether no object anywhere inside the value carries a field whose
value is `undefined` (array elements themselves may be `undefined`;
only object fields are constrained, matching what sanitization strips). -/
def valueNoUndefField : Value → Bool
  | .vArr xs => listNoUndefField xs
  | .vObj fs => fieldsNoUndefField fs
  | _ => true

/-- listNoUndefField, the array case of valueNoUndefField. -/
def listNoUndefField : VList → Bool
  | .nil => true
  | .cons v t => valueNoUndefField v && listNoUndefField t

/-- fieldsNoUndefField, the object case of valueNoUndefField: every
field value is defined and recursively clean. -/
def fieldsNoUndefField : VFields → Bool
  | .fnil => true
  | .fcons _ v t =>
    !v.isUndefined && valueNoUndefField v && fieldsNoUndefField t

end

/-- The default `maxAgeMs` of isCustomClaimsStale: 24 hours in
milliseconds. -/
def defaultMaxAgeMs : Int := 86400000

/-- CustomClaimsService.isCustomClaimsStale.  `Date.now()` is passed in
explicitly as `now`.  The guard `!claims || !claims.updatedAt` is a
truthiness test; in the age branch `now - updatedAt` follows JavaScript
numeric subtraction, where a non-numeric operand gives NaN and
`NaN > maxAgeMs` is false. -/
def isCustomClaimsStale (claims : Option VFields) (maxAgeMs : Int)
    (now : Int) : Bool :=
  match claims with
  | none => true
  | some c =>
    let updatedAt := c.get "updatedAt"
    if !truthy updatedAt then true
    else
      match toNum updatedAt with
      | some u => decide (now - u > maxAgeMs)
      | none => false

/-- JavaScript property write `obj[key] = value` (and equally one step
of object spread): an existing binding is overwritten in place, a new
key is appended at the end. -/
def jsSet : VFields → String → Value → VFields
  | .fnil, key, value => .fcons key value .fnil
  | .fcons k v t, key, value =>
    if k = key then .fcons k value t else .fcons k v (jsSet t key value)

/-- Object spread `{...acc, ...src}`: copy the entries of `src` into
`acc` in order, overwriting repeated keys. -/
def spreadInto (acc : VFields) : VFields → VFields
  | .fnil => acc
  | .fcons k v t => spreadInto (jsSet acc k v) t

/-- The merged claims object built by CustomClaimsService.updateCustomClaims:
spread of the existing claims (an absent read result spreads to
nothing), then the partial claims, then `updatedAt: Date.now()`. -/
def mergeClaims (existingClaims : Option VFields) (updates : VFields)
    (now : Int) : VFields :=
  jsSet (spreadInto (spreadInto .fnil (existingClaims.getD .fnil)) updates)
    "updatedAt" (.vNum now)

/-- CustomClaimsService.updateCustomClaims, with the identity-provider
read reified as its result:  `readResult` is what
`firebaseAdminService.getCustomClaims(userId)` produced (an error, or
possibly-absent existing claims) and the returned `Except` is the merged
claims object handed to `setCustomClaims` — an error result means the
catch block rethrew the read failure unchanged and `setCustomClaims` was
never invoked.  `updates` is the `partialClaims` argument of the source;
`now` is `Date.now()`. -/
def updateCustomClaims {ε : Type} (readResult : Except ε (Option VFields))
    (updates : VFields) (now : Int) : Except ε VFields :=
  match readResult with
  | .error e => .error e
  | .ok existingClaims => .ok (mergeClaims existingClaims updates now)

/-- Whether a value is anything but `null`. -/
def Value.isNotNull : Value → Bool
  | .vNull => false
  | _ => true

/-- Top-level condition maps whose values are never `null` — for such
maps `Object.entries(null)` is unreachable and condition evaluation
cannot throw. -/
def condsNoNullTop : VFields → Bool
  | .fnil => true
  | .fcons _ v t => v.isNotNull && condsNoNullTop t

/-- Whether a rule's condition map (when present) is free of top-level
`null` values.  Every built-in rule satisfies this. -/
def ruleCondsOk (rule : IABAC) : Bool :=
  match rule.conditions with
  | none => true
  | some conditions => condsNoNullTop conditions

/-- Whether a condition's expected value is a literal in the sense of
the evaluator's own dichotomy: a value that does not enter the
operator-map branch, i.e. one failing the source's
`typeof expectedValue === 'object' && !Array.isArray(expectedValue)`
test (primitives, `undefined` and arrays). -/
def isLiteralValue (v : Value) : Bool :=
  !(v.typeofIsObject && !v.isArray)

/-- Specification-level reading of a single rule match, written from the
spec's words: the rule's action is the wildcard or the requested action,
its resource is the wildcard or the requested resource, and it has no
conditions or its conditions evaluate to true. -/
def RuleMatchSpec (rule : IABAC) (action resource : String)
    (user : IAuthorizationContext) (resourceContext : Option VFields) :
    Prop :=
  (rule.action = "*" ∨ rule.action = action) ∧
  (rule.resource = "*" ∨ rule.resource = resource) ∧
  (rule.conditions = none ∨
    ∃ conditions, rule.conditions = some conditions ∧
      evaluateConditions conditions user resourceContext = .ok true)

/-- Specification-level reading of a grant for a non-admin caller: some
rule of an active role found in the registry among the caller's roles
matches. -/
def PermissionGrantedSpec (user : IAuthorizationContext)
    (action resource : String) (resourceContext : Option VFields) : Prop :=
  ∃ role ∈ user.roles, ∃ roleDefinition,
    builtInRoles.lookup role = some roleDefinition ∧
    roleDefinition.active = true ∧
    ∃ rule ∈ roleDefinition.abacRules,
      RuleMatchSpec rule action resource user resourceContext

/-! Theorems.  Helper lemmas come first, then one theorem per claim
(with witnesses and counterexamples where called for). -/

/-- Structural induction on the spine of an object's field list. -/
theorem fieldsTailInduction {P : VFields → Prop} (hnil : P .fnil)
    (hcons : ∀ k v t, P t → P (.fcons k v t)) : ∀ f, P f
  | .fnil => hnil
  | .fcons k v t => hcons k v t (fieldsTailInduction hnil hcons t)

/-- Nothing is strictly equal to a plain object (reference equality on
separately constructed values). -/
theorem jsStrictEq_vObj_right (x : Value) (fs : VFields) :
    jsStrictEq x (.vObj fs) = false := by
  cases x <;> rfl

/-- Template resolution leaves a non-string value untouched. -/
theorem resolveTemplateVariable_vObj (fs : VFields)
    (user : IAuthorizationContext) :
    resolveTemplateVariable (.vObj fs) user = .vObj fs := rfl

/-- An operator key the switch does not recognize imposes no
constraint. -/
theorem opPasses_of_unrecognized {op : String}
    (h : recognizedOp op = false) (opValue value : Value) :
    opPasses op opValue value = true := by
  simp only [recognizedOp, Bool.or_eq_false_iff, decide_eq_false_iff_not] at h
  obtain ⟨⟨⟨⟨⟨⟨⟨⟨h1, h2⟩, h3⟩, h4⟩, h5⟩, h6⟩, h7⟩, h8⟩, h9⟩ := h
  simp [opPasses, h1, h2, h3, h4, h5, h6, h7, h8, h9]

/-- The operator loop succeeds exactly when every listed operator lets
the selected value through. -/
theorem evaluateOpsLoop_eq_true_iff (value : Value) : ∀ ops : VFields,
    evaluateOpsLoop ops value = true ↔
      ∀ op opValue, (op, opValue) ∈ ops.toList →
        opPasses op opValue value = true := by
  intro ops
  induction ops using fieldsTailInduction with
  | hnil => simp [evaluateOpsLoop, VFields.toList]
  | hcons op opValue rest ih =>
    rw [evaluateOpsLoop]
    by_cases hp : opPasses op opValue value = true
    · rw [if_pos hp, ih]
      simp only [VFields.toList, List.mem_cons]
      constructor
      · rintro h o ov (hov | hov)
        · cases hov; exact hp
        · exact h o ov hov
      · intro h o ov hov
        exact h o ov (Or.inr hov)
    · rw [if_neg hp]
      constructor
      · intro h; exact absurd h (by simp)
      · intro h
        exact absurd (h op opValue (by simp [VFields.toList])) hp

/-- A single-key condition whose expected value is an operator map
evaluates to the operator verdict: the equality shortcut cannot fire
against an object. -/
theorem evaluateConditions_singleton_vObj (key : String) (ops : VFields)
    (user : IAuthorizationContext) (rc : Option VFields) :
    evaluateConditions (.fcons key (.vObj ops) .fnil) user rc =
      .ok (evaluateOperators ops (user.attributes.get key) (rcGet rc key)) := by
  simp only [evaluateConditions, resolveTemplateVariable_vObj,
    jsStrictEq_vObj_right, Bool.or_self, Bool.false_eq_true, if_false]
  cases hb : evaluateOperators ops (user.attributes.get key) (rcGet rc key) <;>
    simp [hb]

/-- A single-key condition whose expected value is a literal (not
operator-map shaped) evaluates to the equality-shortcut verdict. -/
theorem evaluateConditions_singleton_literal (key : String)
    (expected : Value) (user : IAuthorizationContext)
    (rc : Option VFields) (hlit : isLiteralValue expected = true) :
    evaluateConditions (.fcons key expected .fnil) user rc =
      .ok (jsStrictEq (user.attributes.get key)
            (resolveTemplateVariable expected user) ||
          jsStrictEq (rcGet rc key)
            (resolveTemplateVariable expected user)) := by
  simp only [evaluateConditions]
  by_cases hc : (jsStrictEq (user.attributes.get key)
      (resolveTemplateVariable expected user) ||
      jsStrictEq (rcGet rc key)
        (resolveTemplateVariable expected user)) = true
  · rw [if_pos hc, hc]
  · rw [if_neg hc]
    have hc' : (jsStrictEq (user.attributes.get key)
        (resolveTemplateVariable expected user) ||
        jsStrictEq (rcGet rc key)
          (resolveTemplateVariable expected user)) = false := by
      simpa using hc
    rw [hc']
    cases expected <;>
      first
        | rfl
        | simp [isLiteralValue, Value.typeofIsObject, Value.isArray] at hlit

/-- The imperative rule match agrees with its specification reading. -/
theorem ruleMatches_eq_ok_true_iff (rule : IABAC)
    (action resource : String) (user : IAuthorizationContext)
    (rc : Option VFields) :
    ruleMatches rule action resource user rc = .ok true ↔
      RuleMatchSpec rule action resource user rc := by
  unfold ruleMatches RuleMatchSpec
  split_ifs with h1 h2
  · constructor
    · intro h; exact absurd h (by simp)
    · rintro ⟨ha, _, _⟩
      rcases ha with ha | ha
      · exact absurd ha h1.1
      · exact absurd ha h1.2
  · constructor
    · intro h; exact absurd h (by simp)
    · rintro ⟨_, hr, _⟩
      rcases hr with hr | hr
      · exact absurd hr h2.1
      · exact absurd hr h2.2
  · rw [not_and_or, not_not, not_not] at h1 h2
    cases hcond : rule.conditions with
    | none =>
      exact iff_of_true rfl ⟨h1, h2, Or.inl rfl⟩
    | some conds =>
      constructor
      · intro h
        exact ⟨h1, h2, Or.inr ⟨conds, rfl, h⟩⟩
      · rintro ⟨_, _, hc | ⟨c, hceq, hcv⟩⟩
        · exact Option.noConfusion hc
        · cases hceq
          exact hcv

/-- Condition evaluation cannot throw when no top-level condition value
is `null`. -/
theorem evaluateConditions_isOk_of_noNull (user : IAuthorizationContext)
    (rc : Option VFields) : ∀ conds : VFields,
    condsNoNullTop conds = true →
    ∃ b, evaluateConditions conds user rc = .ok b := by
  intro conds
  induction conds using fieldsTailInduction with
  | hnil => exact fun _ => ⟨true, rfl⟩
  | hcons key v rest ih =>
    intro h
    rw [condsNoNullTop, Bool.and_eq_true] at h
    obtain ⟨hv, ht⟩ := h
    simp only [evaluateConditions]
    split
    · exact ih ht
    · cases v with
      | vNull => exact absurd hv (by simp [Value.isNotNull])
      | vObj ops =>
        show ∃ b, (if evaluateOperators ops (user.attributes.get key)
          (rcGet rc key) then evaluateConditions rest user rc
          else .ok false) = .ok b
        split
        · exact ih ht
        · exact ⟨false, rfl⟩
      | vUndefined => exact ⟨false, rfl⟩
      | vBool b => exact ⟨false, rfl⟩
      | vNum n => exact ⟨false, rfl⟩
      | vStr s => exact ⟨false, rfl⟩
      | vFun => exact ⟨false, rfl⟩
      | vArr xs => exact ⟨false, rfl⟩

/-- Rule matching cannot throw when the rule's conditions are free of
top-level `null` values. -/
theorem ruleMatches_isOk (rule : IABAC) (action resource : String)
    (user : IAuthorizationContext) (rc : Option VFields)
    (h : ruleCondsOk rule = true) :
    ∃ b, ruleMatches rule action resource user rc = .ok b := by
  unfold ruleMatches
  split_ifs
  · exact ⟨false, rfl⟩
  · exact ⟨false, rfl⟩
  · cases hcond : rule.conditions with
    | none => exact ⟨true, rfl⟩
    | some conds =>
      unfold ruleCondsOk at h
      rw [hcond] at h
      exact evaluateConditions_isOk_of_noNull user rc conds h

/-- A successful association-list lookup returns one of the stored
values. -/
theorem lookup_mem_snd {α β : Type} [BEq α] :
    ∀ (l : List (α × β)) (k : α) (v : β),
    l.lookup k = some v → v ∈ l.map Prod.snd := by
  intro l
  induction l with
  | nil => intro k v h; simp [List.lookup] at h
  | cons p t ih =>
    obtain ⟨a, b⟩ := p
    intro k v h
    rw [List.lookup_cons] at h
    split at h
    · cases h
      simp
    · simp only [List.map, List.mem_cons]
      exact Or.inr (ih k v h)

/-- Every rule of every registered built-in role has a condition map
free of top-level `null` values. -/
theorem builtin_ruleCondsOk {role : String} {rd : IRoleDefinition}
    (h : builtInRoles.lookup role = some rd) :
    ∀ rule ∈ rd.abacRules, ruleCondsOk rule = true := by
  have hmem := lookup_mem_snd builtInRoles role rd h
  have hadmin : adminRole.abacRules.all ruleCondsOk = true := rfl
  have hmod : moderatorRole.abacRules.all ruleCondsOk = true := rfl
  have huser : userRole.abacRules.all ruleCondsOk = true := rfl
  have hguest : guestRole.abacRules.all ruleCondsOk = true := rfl
  simp only [builtInRoles, List.map, List.mem_cons, List.not_mem_nil,
    or_false] at hmem
  rcases hmem with h' | h' | h' | h' <;> subst h'
  · exact fun rule hr => List.all_eq_true.mp hadmin rule hr
  · exact fun rule hr => List.all_eq_true.mp hmod rule hr
  · exact fun rule hr => List.all_eq_true.mp huser rule hr
  · exact fun rule hr => List.all_eq_true.mp hguest rule hr

/-- Membership in the aggregated applicable rules is membership in the
rules of a registered, active role among the caller's roles. -/
theorem mem_getApplicableRules (rule : IABAC) : ∀ roles : List String,
    rule ∈ getApplicableRules roles ↔
      ∃ role ∈ roles, ∃ rd, builtInRoles.lookup role = some rd ∧
        rd.active = true ∧ rule ∈ rd.abacRules := by
  intro roles
  induction roles with
  | nil => simp [getApplicableRules]
  | cons role rest ih =>
    rw [getApplicableRules, List.mem_append, ih]
    constructor
    · rintro (hhead | ⟨r, hr, rd, hl, ha, hm⟩)
      · revert hhead
        cases hl : builtInRoles.lookup role with
        | none => intro hhead; exact absurd hhead (by simp)
        | some rd =>
          dsimp only
          by_cases ha : rd.active = true
          · rw [if_pos ha]
            intro hhead
            exact ⟨role, List.mem_cons_self _ _, rd, hl, ha, hhead⟩
          · rw [if_neg ha]
            intro hhead
            exact absurd hhead (by simp)
      · exact ⟨r, List.mem_cons_of_mem _ hr, rd, hl, ha, hm⟩
    · rintro ⟨r, hr, rd, hl, ha, hm⟩
      rcases List.mem_cons.mp hr with heq | htail
      · subst heq
        left
        rw [hl]
        dsimp only
        rw [if_pos ha]
        exact hm
      · exact Or.inr ⟨r, htail, rd, hl, ha, hm⟩

/-- The first-match loop returns an allow exactly when some listed rule
matches, provided no listed rule can throw. -/
theorem firstRuleMatch_ok_true_iff (action resource : String)
    (user : IAuthorizationContext) (rc : Option VFields) :
    ∀ rules : List IABAC,
    (∀ rule ∈ rules, ruleCondsOk rule = true) →
    (firstRuleMatch rules action resource user rc = .ok true ↔
      ∃ rule ∈ rules, RuleMatchSpec rule action resource user rc) := by
  intro rules
  induction rules with
  | nil => intro _; simp [firstRuleMatch]
  | cons rule rest ih =>
    intro hall
    obtain ⟨b, hb⟩ := ruleMatches_isOk rule action resource user rc
      (hall rule (List.mem_cons_self _ _))
    rw [firstRuleMatch, hb]
    cases b with
    | true =>
      constructor
      · intro _
        exact ⟨rule, List.mem_cons_self _ _,
          (ruleMatches_eq_ok_true_iff _ _ _ _ _).mp hb⟩
      · intro _; rfl
    | false =>
      rw [ih fun r hr => hall r (List.mem_cons_of_mem _ hr)]
      constructor
      · rintro ⟨r, hr, hspec⟩
        exact ⟨r, List.mem_cons_of_mem _ hr, hspec⟩
      · rintro ⟨r, hr, hspec⟩
        rcases List.mem_cons.mp hr with heq | htail
        · subst heq
          have := (ruleMatches_eq_ok_true_iff _ _ _ _ _).mpr hspec
          rw [this] at hb
          exact absurd hb (by simp)
        · exact ⟨r, htail, hspec⟩

/-- The first-match loop cannot throw when no listed rule can. -/
theorem firstRuleMatch_isOk (action resource : String)
    (user : IAuthorizationContext) (rc : Option VFields) :
    ∀ rules : List IABAC,
    (∀ rule ∈ rules, ruleCondsOk rule = true) →
    ∃ b, firstRuleMatch rules action resource user rc = .ok b := by
  intro rules
  induction rules with
  | nil => exact fun _ => ⟨false, rfl⟩
  | cons rule rest ih =>
    intro hall
    obtain ⟨b, hb⟩ := ruleMatches_isOk rule action resource user rc
      (hall rule (List.mem_cons_self _ _))
    rw [firstRuleMatch, hb]
    cases b with
    | true => exact ⟨true, rfl⟩
    | false => exact ih fun r hr => hall r (List.mem_cons_of_mem _ hr)

/-- Bridge between `List.contains` and list membership. -/
theorem contains_eq_false_of_not_mem {l : List String} {a : String}
    (h : a ∉ l) : l.contains a = false := by
  simp only [List.contains, List.elem_eq_mem, decide_eq_false_iff_not]
  exact h

/-- C1.  For every authorization context whose roles include the
administrator role id `admin`, checkPermission returns true (allow) for
every action, resource, and resource context, regardless of any rule
conditions. -/
theorem checkPermission_admin_bypass (user : IAuthorizationContext)
    (action resource : String) (resourceContext : Option VFields)
    (h : BuiltInRole.ADMIN ∈ user.roles) :
    checkPermission user action resource resourceContext = .ok true := by
  unfold checkPermission
  rw [if_pos]
  simp only [List.contains, List.elem_eq_mem, decide_eq_true_eq]
  exact h

/-- Witness for C1 at a concrete admin context and an arbitrary
action/resource pair outside the enumerated vocabulary. -/
theorem checkPermission_admin_bypass_witness :
    checkPermission
      { userId := "u1", email := "a@b.c", roles := ["admin"],
        attributes := .fnil }
      "frobnicate" "gizmo" none = .ok true :=
  checkPermission_admin_bypass
    { userId := "u1", email := "a@b.c", roles := ["admin"],
      attributes := .fnil }
    "frobnicate" "gizmo" none (by decide)

/-- C2.  For a context without the admin role, checkPermission returns
allow exactly when some rule of an active registered role among the
caller's roles matches (wildcard-or-equal action, wildcard-or-equal
resource, and absent or satisfied conditions), and returns deny — not an
error — exactly otherwise, for arbitrary action and resource strings. -/
theorem checkPermission_non_admin_characterization
    (user : IAuthorizationContext) (action resource : String)
    (resourceContext : Option VFields)
    (h : BuiltInRole.ADMIN ∉ user.roles) :
    (checkPermission user action resource resourceContext = .ok true ↔
      PermissionGrantedSpec user action resource resourceContext) ∧
    (checkPermission user action resource resourceContext = .ok false ↔
      ¬ PermissionGrantedSpec user action resource resourceContext) := by
  have hc : user.roles.contains BuiltInRole.ADMIN = false :=
    contains_eq_false_of_not_mem h
  have hcp : checkPermission user action resource resourceContext =
      firstRuleMatch (getApplicableRules user.roles) action resource user
        resourceContext := by
    unfold checkPermission
    rw [if_neg]
    rw [hc]
    simp
  have hall : ∀ rule ∈ getApplicableRules user.roles,
      ruleCondsOk rule = true := by
    intro rule hr
    obtain ⟨role, _, rd, hl, _, hmem⟩ := (mem_getApplicableRules rule _).mp hr
    exact builtin_ruleCondsOk hl rule hmem
  have hiff : checkPermission user action resource resourceContext =
      .ok true ↔ PermissionGrantedSpec user action resource resourceContext := by
    rw [hcp, firstRuleMatch_ok_true_iff action resource user resourceContext
      (getApplicableRules user.roles) hall]
    unfold PermissionGrantedSpec
    constructor
    · rintro ⟨rule, hr, hspec⟩
      obtain ⟨role, hrole, rd, hl, ha, hmem⟩ :=
        (mem_getApplicableRules rule _).mp hr
      exact ⟨role, hrole, rd, hl, ha, rule, hmem, hspec⟩
    · rintro ⟨role, hrole, rd, hl, ha, rule, hmem, hspec⟩
      exact ⟨rule, (mem_getApplicableRules rule _).mpr
        ⟨role, hrole, rd, hl, ha, hmem⟩, hspec⟩
  refine ⟨hiff, ?_⟩
  obtain ⟨b, hb⟩ := firstRuleMatch_isOk action resource user resourceContext
    (getApplicableRules user.roles) hall
  rw [hcp] at hiff ⊢
  rw [hb] at hiff ⊢
  cases b with
  | true =>
    have hspec : PermissionGrantedSpec user action resource resourceContext :=
      hiff.mp rfl
    exact iff_of_false (by simp) (fun hn => hn hspec)
  | false =>
    have hnspec : ¬ PermissionGrantedSpec user action resource
        resourceContext := by
      intro hspec
      exact Except.noConfusion (hiff.mpr hspec) (fun h' => Bool.noConfusion h')
    exact iff_of_true rfl hnspec

/-- Witness for C2 at a concrete guest context: reading a board is
granted via the guest rule (membership supplied by the resource
context), character-for-character through the specification reading. -/
theorem checkPermission_non_admin_characterization_witness :
    (checkPermission
        { userId := "g1", email := "g@b.c", roles := ["guest"],
          attributes := .fnil }
        "read" "board"
        (some (.fcons "boardMember" (.vBool true) .fnil)) = .ok true ↔
      PermissionGrantedSpec
        { userId := "g1", email := "g@b.c", roles := ["guest"],
          attributes := .fnil }
        "read" "board"
        (some (.fcons "boardMember" (.vBool true) .fnil))) ∧
    (checkPermission
        { userId := "g1", email := "g@b.c", roles := ["guest"],
          attributes := .fnil }
        "read" "board"
        (some (.fcons "boardMember" (.vBool true) .fnil)) = .ok false ↔
      ¬ PermissionGrantedSpec
        { userId := "g1", email := "g@b.c", roles := ["guest"],
          attributes := .fnil }
        "read" "board"
        (some (.fcons "boardMember" (.vBool true) .fnil))) :=
  checkPermission_non_admin_characterization
    { userId := "g1", email := "g@b.c", roles := ["guest"],
      attributes := .fnil }
    "read" "board" (some (.fcons "boardMember" (.vBool true) .fnil))
    (by decide)

/-- C3.  For a condition entry whose expected value is a literal (not
operator-map shaped), the key is satisfied exactly when the user
attribute value or the resource-context value strictly equals the
expected value after template resolution; the userId/userEmail template
strings resolve to the context's userId/email; and in particular the
condition mapping userId to the userId template is satisfied exactly
when the userId attribute or resource-context entry strictly equals the
caller's userId. -/
theorem condition_literal_equality_characterization (key : String)
    (expected : Value) (user : IAuthorizationContext)
    (rc : Option VFields) (hlit : isLiteralValue expected = true) :
    (evaluateConditions (.fcons key expected .fnil) user rc = .ok true ↔
      (jsStrictEq (user.attributes.get key)
          (resolveTemplateVariable expected user) = true ∨
        jsStrictEq (rcGet rc key)
          (resolveTemplateVariable expected user) = true)) ∧
    resolveTemplateVariable (.vStr templateUserId) user =
      .vStr user.userId ∧
    resolveTemplateVariable (.vStr templateUserEmail) user =
      .vStr user.email ∧
    (evaluateConditions
        (.fcons AbacAttribute.USER_ID (.vStr templateUserId) .fnil)
        user rc = .ok true ↔
      (jsStrictEq (user.attributes.get AbacAttribute.USER_ID)
          (.vStr user.userId) = true ∨
        jsStrictEq (rcGet rc AbacAttribute.USER_ID)
          (.vStr user.userId) = true)) := by
  have hres : resolveTemplateVariable (.vStr templateUserId) user =
      .vStr user.userId := by
    simp [resolveTemplateVariable]
  have hresEmail : resolveTemplateVariable (.vStr templateUserEmail) user =
      .vStr user.email := by
    simp [resolveTemplateVariable, templateUserId, templateUserEmail]
  refine ⟨?_, hres, hresEmail, ?_⟩
  · rw [evaluateConditions_singleton_literal key expected user rc hlit]
    simp [Bool.or_eq_true]
  · rw [evaluateConditions_singleton_literal AbacAttribute.USER_ID
      (.vStr templateUserId) user rc rfl, hres]
    simp [Bool.or_eq_true]

/-- Witness for C3 at a concrete literal condition: membership boolean
satisfied through the user attribute. -/
theorem condition_literal_equality_characterization_witness :
    evaluateConditions (.fcons "teamMember" (.vBool true) .fnil)
      { userId := "u9", email := "x@y.z", roles := ["user"],
        attributes := .fcons "teamMember" (.vBool true) .fnil }
      none = .ok true ↔
    (jsStrictEq
        (VFields.get (.fcons "teamMember" (.vBool true) .fnil) "teamMember")
        (resolveTemplateVariable (.vBool true)
          { userId := "u9", email := "x@y.z", roles := ["user"],
            attributes := .fcons "teamMember" (.vBool true) .fnil }) = true ∨
      jsStrictEq (rcGet none "teamMember")
        (resolveTemplateVariable (.vBool true)
          { userId := "u9", email := "x@y.z", roles := ["user"],
            attributes := .fcons "teamMember" (.vBool true) .fnil }) = true) :=
  (condition_literal_equality_characterization "teamMember" (.vBool true)
    { userId := "u9", email := "x@y.z", roles := ["user"],
      attributes := .fcons "teamMember" (.vBool true) .fnil }
    none rfl).1

/-- C4.  A condition key carrying an operator map is satisfied exactly
when every listed operator passes on the selected value (the user
attribute when defined, otherwise the resource-context value): a single
violated operator fails the whole condition. -/
theorem condition_operator_map_conjunction (key : String) (ops : VFields)
    (user : IAuthorizationContext) (rc : Option VFields) :
    evaluateConditions (.fcons key (.vObj ops) .fnil) user rc =
      .ok true ↔
      ∀ op opValue, (op, opValue) ∈ ops.toList →
        opPasses op opValue
          (selectedValue (user.attributes.get key) (rcGet rc key)) =
          true := by
  rw [evaluateConditions_singleton_vObj]
  simp only [Except.ok.injEq]
  exact evaluateOpsLoop_eq_true_iff
    (selectedValue (user.attributes.get key) (rcGet rc key)) ops

/-- C5 (divergence record).  The source guards each ordinal operator
with the negated comparison (for `$gt` it is `if (value <= opValue)
return false`), so a non-comparable operand — here the `undefined` of an
absent attribute — makes the guard comparison false and the operator is
vacuously satisfied: the condition contributes an allow, not the deny
the specification requires.  The last conjunct shows the resulting
fail-open decision at the condition level. -/
theorem ordinal_operator_undefined_fail_open :
    evaluateOperators (.fcons "$gt" (.vNum 18) .fnil) .vUndefined
      .vUndefined = true ∧
    evaluateOperators (.fcons "$lt" (.vNum 18) .fnil) .vUndefined
      .vUndefined = true ∧
    evaluateOperators (.fcons "$gte" (.vNum 18) .fnil) .vUndefined
      .vUndefined = true ∧
    evaluateOperators (.fcons "$lte" (.vNum 18) .fnil) .vUndefined
      .vUndefined = true ∧
    evaluateConditions
      (.fcons "age" (.vObj (.fcons "$gt" (.vNum 18) .fnil)) .fnil)
      { userId := "u1", email := "a@b.c", roles := ["user"],
        attributes := .fnil }
      none = .ok true :=
  ⟨rfl, rfl, rfl, rfl, rfl⟩

/-- C6.  An operator map all of whose keys are unrecognized imposes no
constraint: it evaluates as satisfied for every user and resource
value. -/
theorem unrecognized_operators_vacuous (ops : VFields)
    (h : ops.allKeys (fun op => !recognizedOp op) = true) :
    ∀ userValue resourceValue : Value,
      evaluateOperators ops userValue resourceValue = true := by
  intro uv rv
  have hloop : ∀ value : Value,
      evaluateOpsLoop ops value = true := by
    intro value
    induction ops using fieldsTailInduction with
    | hnil => rfl
    | hcons op ov rest ih =>
      rw [VFields.allKeys, Bool.and_eq_true] at h
      obtain ⟨hop, ht⟩ := h
      rw [evaluateOpsLoop,
        if_pos (opPasses_of_unrecognized (by simpa using hop) ov value)]
      exact ih ht
  exact hloop (selectedValue uv rv)

/-- Witness for C6: a map holding only the unknown `$foo` operator lets
a concrete defined value through. -/
theorem unrecognized_operators_vacuous_witness :
    VFields.allKeys (fun op => !recognizedOp op)
      (.fcons "$foo" (.vNum 1) .fnil) = true ∧
    evaluateOperators (.fcons "$foo" (.vNum 1) .fnil) (.vNum 5)
      .vUndefined = true :=
  ⟨by decide,
    unrecognized_operators_vacuous (.fcons "$foo" (.vNum 1) .fnil)
      (by decide) (.vNum 5) .vUndefined⟩

/-- C10.  The composite checks on an empty permission list: the
conjunction over zero checks allows, the disjunction over zero checks
denies, for every context and resource context. -/
theorem composite_checks_empty_list (user : IAuthorizationContext)
    (resourceContext : Option VFields) :
    checkPermissions user [] resourceContext = .ok true ∧
    checkAnyPermission user [] resourceContext = .ok false :=
  ⟨rfl, rfl⟩

/-- C8 (counterexample).  A present numeric `updatedAt` of `0` is falsy,
so the code reports stale even when `now - updatedAt` is far below the
threshold: at `now = 1` with the default threshold the claim's formula
says fresh, the code says stale. -/
theorem isCustomClaimsStale_zero_counterexample :
    isCustomClaimsStale (some (.fcons "updatedAt" (.vNum 0) .fnil))
      defaultMaxAgeMs 1 = true ∧
    ¬ ((1 : Int) - 0 > defaultMaxAgeMs) :=
  ⟨rfl, by decide⟩

/-- C8 (amended).  isCustomClaimsStale returns true when the claims
object is absent or its `updatedAt` is absent; when `updatedAt` is a
number it returns true exactly when `updatedAt` is `0` (falsy, treated
like a missing timestamp) or `now - updatedAt > maxAgeMs` strictly; the
default threshold is 24 hours in milliseconds. -/
theorem isCustomClaimsStale_characterization (maxAgeMs now : Int) :
    isCustomClaimsStale none maxAgeMs now = true ∧
    defaultMaxAgeMs = 86400000 ∧
    (∀ c : VFields, c.get "updatedAt" = .vUndefined →
      isCustomClaimsStale (some c) maxAgeMs now = true) ∧
    (∀ (c : VFields) (n : Int), c.get "updatedAt" = .vNum n →
      (isCustomClaimsStale (some c) maxAgeMs now = true ↔
        (n = 0 ∨ now - n > maxAgeMs))) := by
  refine ⟨rfl, rfl, ?_, ?_⟩
  · intro c hc
    simp [isCustomClaimsStale, hc, truthy]
  · intro c n hc
    by_cases hn : n = 0
    · subst hn
      simp [isCustomClaimsStale, hc, truthy]
    · simp [isCustomClaimsStale, hc, truthy, toNum, hn]

/-- Witness for C8 at a concrete nonzero timestamp. -/
theorem isCustomClaimsStale_characterization_witness :
    isCustomClaimsStale (some (.fcons "updatedAt" (.vNum 5) .fnil))
      10 20 = true ↔ ((5 : Int) = 0 ∨ (20 : Int) - 5 > 10) :=
  (isCustomClaimsStale_characterization 10 20).2.2.2
    (.fcons "updatedAt" (.vNum 5) .fnil) 5 rfl

/-- Reading after a property write: the written key returns the new
value, every other key is untouched. -/
theorem jsSet_get : ∀ (f : VFields) (k : String) (v : Value)
    (k' : String),
    (jsSet f k v).get k' = if k' = k then v else f.get k' := by
  intro f
  induction f using fieldsTailInduction with
  | hnil =>
    intro k v k'
    simp only [jsSet, VFields.get, beq_iff_eq]
    by_cases hk : k' = k
    · subst hk
      simp
    · rw [if_neg (fun h => hk h.symm), if_neg hk]
  | hcons a b t ih =>
    intro k v k'
    rw [jsSet]
    by_cases hak : a = k
    · subst hak
      rw [if_pos rfl]
      simp only [VFields.get, beq_iff_eq]
      by_cases hk : k' = a
      · subst hk
        simp
      · rw [if_neg (fun h => hk h.symm), if_neg hk,
          if_neg (fun h => hk h.symm)]
    · rw [if_neg hak]
      simp only [VFields.get, beq_iff_eq, ih]
      by_cases hk : k' = a
      · subst hk
        simp [hak]
      · rw [if_neg (fun h => hk h.symm)]
        by_cases hkk : k' = k
        · simp [hkk]
        · rw [if_neg hkk, if_neg hkk, if_neg (fun h => hk h.symm)]

/-- Reading an absent key yields `undefined`. -/
theorem get_of_not_hasKey : ∀ (f : VFields) (k : String),
    f.hasKey k = false → f.get k = .vUndefined := by
  intro f
  induction f using fieldsTailInduction with
  | hnil => intro k _; rfl
  | hcons a b t ih =>
    intro k h
    rw [VFields.hasKey, Bool.or_eq_false_iff] at h
    rw [VFields.get, if_neg (by simp [h.1]), ih k h.2]

/-- Reading after a spread of a duplicate-free source: a key of the
source reads its source value, any other key falls back to the
accumulator. -/
theorem spreadInto_get (k : String) : ∀ src : VFields,
    src.keysNodup = true → ∀ acc : VFields,
    (spreadInto acc src).get k =
      if src.hasKey k = true then src.get k else acc.get k := by
  intro src
  induction src using fieldsTailInduction with
  | hnil =>
    intro _ acc
    simp [spreadInto, VFields.hasKey]
  | hcons k0 v0 t ih =>
    intro h acc
    rw [VFields.keysNodup, Bool.and_eq_true] at h
    obtain ⟨h1, h2⟩ := h
    rw [Bool.not_eq_true'] at h1
    rw [spreadInto, ih h2, jsSet_get, VFields.hasKey, VFields.get]
    by_cases hk : k = k0
    · subst hk
      rw [h1]
      simp
    · have hbe : (k0 == k) = false := by
        simp only [beq_eq_false_iff_ne, ne_eq]
        exact fun h => hk h.symm
      rw [hbe]
      simp only [Bool.false_or, if_neg hk]
      by_cases ht : t.hasKey k = true
      · rw [ht]
        simp
      · rw [Bool.not_eq_true] at ht
        rw [ht]
        simp

/-- Lookup characterization of the read-merge-write result: `updatedAt`
carries the stamp, every other key prefers the partial update and falls
back to the existing payload. -/
theorem mergeClaims_get (existingClaims : Option VFields)
    (updates : VFields) (now : Int) (k : String)
    (hex : (existingClaims.getD .fnil).keysNodup = true)
    (hup : updates.keysNodup = true) :
    (mergeClaims existingClaims updates now).get k =
      if k = "updatedAt" then .vNum now
      else if updates.hasKey k = true then updates.get k
      else (existingClaims.getD .fnil).get k := by
  unfold mergeClaims
  rw [jsSet_get, spreadInto_get k updates hup,
    spreadInto_get k (existingClaims.getD .fnil) hex]
  by_cases h1 : k = "updatedAt"
  · simp [h1]
  · rw [if_neg h1, if_neg h1]
    by_cases h2 : updates.hasKey k = true
    · simp [h2]
    · rw [Bool.not_eq_true] at h2
      rw [h2]
      simp only [Bool.false_eq_true, if_false]
      by_cases h3 : (existingClaims.getD .fnil).hasKey k = true
      · simp [h3]
      · rw [Bool.not_eq_true] at h3
        rw [h3]
        simp only [Bool.false_eq_true, if_false, VFields.get]
        exact (get_of_not_hasKey _ k h3).symm

/-- C7.  updateCustomClaims on a failed identity-provider read
propagates that very failure and produces no write; on a successful read
it hands setCustomClaims exactly the top-level merge of the partial
claims over the existing payload with `updatedAt` stamped to the
current time. -/
theorem updateCustomClaims_read_merge_write {ε : Type}
    (readResult : Except ε (Option VFields)) (updates : VFields)
    (now : Int) :
    (∀ e : ε, readResult = .error e →
      updateCustomClaims readResult updates now = .error e) ∧
    (∀ existingClaims : Option VFields, readResult = .ok existingClaims →
      updateCustomClaims readResult updates now =
        .ok (mergeClaims existingClaims updates now) ∧
      ((existingClaims.getD .fnil).keysNodup = true →
        updates.keysNodup = true →
        ∀ k : String, (mergeClaims existingClaims updates now).get k =
          if k = "updatedAt" then .vNum now
          else if updates.hasKey k = true then updates.get k
          else (existingClaims.getD .fnil).get k)) := by
  constructor
  · intro e he
    rw [he]
    rfl
  · intro existingClaims he
    rw [he]
    exact ⟨rfl, fun hex hup k => mergeClaims_get existingClaims updates now
      k hex hup⟩

/-- Witness for C7 at a concrete read result and partial update: the
merged object is handed over, the stamp wins over both inputs, a
partial-update key wins over the existing payload, and an untouched key
survives. -/
theorem updateCustomClaims_read_merge_write_witness :
    updateCustomClaims (ε := Unit)
        (.ok (some (.fcons "role" (.vStr "user")
          (.fcons "updatedAt" (.vNum 3) .fnil))))
        (.fcons "role" (.vStr "moderator") .fnil) 99 =
      .ok (mergeClaims
        (some (.fcons "role" (.vStr "user")
          (.fcons "updatedAt" (.vNum 3) .fnil)))
        (.fcons "role" (.vStr "moderator") .fnil) 99) ∧
    (mergeClaims
        (some (.fcons "role" (.vStr "user")
          (.fcons "updatedAt" (.vNum 3) .fnil)))
        (.fcons "role" (.vStr "moderator") .fnil) 99).get "updatedAt" =
      (if ("updatedAt" : String) = "updatedAt" then Value.vNum 99
        else if VFields.hasKey (.fcons "role" (.vStr "moderator") .fnil)
            "updatedAt" = true then
          VFields.get (.fcons "role" (.vStr "moderator") .fnil) "updatedAt"
        else VFields.get (.fcons "role" (.vStr "user")
          (.fcons "updatedAt" (.vNum 3) .fnil)) "updatedAt") := by
  have h := updateCustomClaims_read_merge_write (ε := Unit)
    (.ok (some (.fcons "role" (.vStr "user")
      (.fcons "updatedAt" (.vNum 3) .fnil))))
    (.fcons "role" (.vStr "moderator") .fnil) 99
  obtain ⟨heq, hget⟩ := h.2 (some (.fcons "role" (.vStr "user")
    (.fcons "updatedAt" (.vNum 3) .fnil))) rfl
  exact ⟨heq, by
    have := hget (by decide) (by decide) "updatedAt"
    simpa using this⟩

/-- Sanitization maps `undefined` to itself and nothing else to
`undefined`. -/
theorem sanitizeValue_isUndefined (v : Value) :
    (sanitizeValue v).isUndefined = v.isUndefined := by
  cases v <;> simp [sanitizeValue, Value.isUndefined]

mutual

/-- Value sanitization is idempotent. -/
theorem sanitizeValue_idem : ∀ v : Value,
    sanitizeValue (sanitizeValue v) = sanitizeValue v
  | .vNull => by simp [sanitizeValue]
  | .vUndefined => by simp [sanitizeValue]
  | .vStr s => by simp [sanitizeValue]
  | .vNum n => by simp [sanitizeValue]
  | .vBool b => by simp [sanitizeValue]
  | .vFun => by simp [sanitizeValue]
  | .vArr xs => by
    simp [sanitizeValue, sanitizeList_idem xs]
  | .vObj fs => by
    simp [sanitizeValue, sanitizeObject_idem fs]

/-- Element-wise array sanitization is idempotent. -/
theorem sanitizeList_idem : ∀ xs : VList,
    sanitizeList (sanitizeList xs) = sanitizeList xs
  | .nil => by simp [sanitizeList]
  | .cons v t => by
    simp [sanitizeList, sanitizeValue_idem v, sanitizeList_idem t]

/-- Object sanitization is idempotent. -/
theorem sanitizeObject_idem : ∀ fs : VFields,
    sanitizeObject (sanitizeObject fs) = sanitizeObject fs
  | .fnil => by simp [sanitizeObject]
  | .fcons k v t => by
    by_cases hv : v.isUndefined = true
    · rw [sanitizeObject, if_pos hv]
      exact sanitizeObject_idem t
    · rw [sanitizeObject, if_neg hv, sanitizeObject,
        if_neg (by rw [sanitizeValue_isUndefined]; exact hv),
        sanitizeValue_idem v, sanitizeObject_idem t]

end

mutual

/-- Sanitized values carry no `undefined`-valued object field
anywhere. -/
theorem sanitizeValue_noUndefField : ∀ v : Value,
    valueNoUndefField (sanitizeValue v) = true
  | .vNull => by simp [sanitizeValue, valueNoUndefField]
  | .vUndefined => by simp [sanitizeValue, valueNoUndefField]
  | .vStr s => by simp [sanitizeValue, valueNoUndefField]
  | .vNum n => by simp [sanitizeValue, valueNoUndefField]
  | .vBool b => by simp [sanitizeValue, valueNoUndefField]
  | .vFun => by simp [sanitizeValue, valueNoUndefField]
  | .vArr xs => by
    simp [sanitizeValue, valueNoUndefField, sanitizeList_noUndefField xs]
  | .vObj fs => by
    simp [sanitizeValue, valueNoUndefField, sanitizeObject_noUndefField fs]

/-- Sanitized arrays carry no `undefined`-valued object field
anywhere. -/
theorem sanitizeList_noUndefField : ∀ xs : VList,
    listNoUndefField (sanitizeList xs) = true
  | .nil => by simp [sanitizeList, listNoUndefField]
  | .cons v t => by
    simp [sanitizeList, listNoUndefField, sanitizeValue_noUndefField v,
      sanitizeList_noUndefField t]

/-- Sanitized objects carry no `undefined`-valued field anywhere. -/
theorem sanitizeObject_noUndefField : ∀ fs : VFields,
    fieldsNoUndefField (sanitizeObject fs) = true
  | .fnil => by simp [sanitizeObject, fieldsNoUndefField]
  | .fcons k v t => by
    by_cases hv : v.isUndefined = true
    · rw [sanitizeObject, if_pos hv]
      exact sanitizeObject_noUndefField t
    · rw [sanitizeObject, if_neg hv, fieldsNoUndefField,
        sanitizeValue_isUndefined]
      simp [Bool.not_eq_true] at hv
      simp [hv, sanitizeValue_noUndefField v, sanitizeObject_noUndefField t]

end

/-- Top-level claims sanitization is idempotent. -/
theorem sanitizeCustomClaims_idem : ∀ claims : VFields,
    sanitizeCustomClaims (sanitizeCustomClaims claims) =
      sanitizeCustomClaims claims := by
  intro claims
  induction claims using fieldsTailInduction with
  | hnil => simp [sanitizeCustomClaims]
  | hcons k v t ih =>
    cases v with
    | vUndefined => simpa [sanitizeCustomClaims] using ih
    | vNull => simpa [sanitizeCustomClaims] using ih
    | vFun => simpa [sanitizeCustomClaims] using ih
    | vStr s => simp [sanitizeCustomClaims, ih]
    | vNum n => simp [sanitizeCustomClaims, ih]
    | vBool b => simp [sanitizeCustomClaims, ih]
    | vArr xs => simp [sanitizeCustomClaims, ih, sanitizeList_idem xs]
    | vObj fs => simp [sanitizeCustomClaims, ih, sanitizeObject_idem fs]

/-- Top-level claims sanitization strips `undefined`-valued fields at
every depth (through nested objects and through the objects inside
arrays). -/
theorem sanitizeCustomClaims_noUndefField : ∀ claims : VFields,
    fieldsNoUndefField (sanitizeCustomClaims claims) = true := by
  intro claims
  induction claims using fieldsTailInduction with
  | hnil => simp [sanitizeCustomClaims, fieldsNoUndefField]
  | hcons k v t ih =>
    cases v with
    | vUndefined => simpa [sanitizeCustomClaims] using ih
    | vNull => simpa [sanitizeCustomClaims] using ih
    | vFun => simpa [sanitizeCustomClaims] using ih
    | vStr s =>
      simp [sanitizeCustomClaims, fieldsNoUndefField, Value.isUndefined,
        valueNoUndefField, ih]
    | vNum n =>
      simp [sanitizeCustomClaims, fieldsNoUndefField, Value.isUndefined,
        valueNoUndefField, ih]
    | vBool b =>
      simp [sanitizeCustomClaims, fieldsNoUndefField, Value.isUndefined,
        valueNoUndefField, ih]
    | vArr xs =>
      simp [sanitizeCustomClaims, fieldsNoUndefField, Value.isUndefined,
        valueNoUndefField, ih, sanitizeList_noUndefField xs]
    | vObj fs =>
      simp [sanitizeCustomClaims, fieldsNoUndefField, Value.isUndefined,
        valueNoUndefField, ih, sanitizeObject_noUndefField fs]

/-- C9.  Payload sanitization is idempotent — sanitizing an
already-sanitized payload yields an identical structure — and a
sanitized payload carries no `undefined`-valued field at any depth: the
sanitizer strips such fields from the payload, recursively through
nested objects and element-wise through arrays. -/
theorem sanitize_idempotent_and_strips_undefined (claims : VFields) :
    sanitizeCustomClaims (sanitizeCustomClaims claims) =
      sanitizeCustomClaims claims ∧
    fieldsNoUndefField (sanitizeCustomClaims claims) = true :=
  ⟨sanitizeCustomClaims_idem claims, sanitizeCustomClaims_noUndefField claims⟩

end DashNest
